import Mathlib

/-!
Verification of the resumable batch-expansion pipeline (`expand.py`).

The Python source is shallowly embedded: strings are lists of characters,
fallible operations return `Except`, the remote service and file-system
faults are supplied as oracles, and the driver loop is a fold over the
pending batch list.
-/

namespace Expand

/-- Python strings are modelled as lists of characters. -/
abbrev Str := List Char

/-- Characters stripped by Python `str.strip()` with no argument: the
ASCII whitespace characters space, tab, newline, carriage return,
vertical tab and form feed.  (Unicode-only whitespace such as NBSP is
outside the model; no claim exercises it.) -/
def pyIsSpace (c : Char) : Bool :=
  c.toNat ∈ [32, 9, 10, 13, 11, 12]

/-- Line-boundary characters of Python `str.splitlines()`:
newline, carriage return, vertical tab, form feed, the separators
FS/GS/RS, NEL, and the Unicode line/paragraph separators. -/
def isBreak (c : Char) : Bool :=
  c.toNat ∈ [10, 13, 11, 12, 28, 29, 30, 0x85, 0x2028, 0x2029]

/-- The stop marker constant appearing as the literal "<stop>" in the source. -/
def stopMarker : Str := ['<', 's', 't', 'o', 'p', '>']

/-- Python `s.strip()`: remove leading and trailing whitespace. -/
def pyStrip (s : Str) : Str :=
  (s.dropWhile pyIsSpace).rdropWhile pyIsSpace

/-- Helper used by `splitRaw`: prepend a character to the first segment. -/
def consHead (c : Char) : List Str → List Str
  | [] => [[c]]
  | l :: ls => (c :: l) :: ls

/-- Split a string at every line-boundary character, like Python
`str.splitlines()` except that a CRLF pair yields one extra empty
segment and a trailing boundary yields one trailing empty segment.
`format_output` discards empty lines after stripping, so the two
readings of the source are observationally equal there. -/
def splitRaw : Str → List Str
  | [] => [[]]
  | c :: rest =>
    if isBreak c then [] :: splitRaw rest else consHead c (splitRaw rest)

/-- One iteration of the loop in `format_output`: strip the line, drop it
if empty, append the stop marker unless already present. -/
def keepLine (line : Str) : Option Str :=
  let l := pyStrip line
  if l = [] then none
  else if stopMarker.isSuffixOf l then some l
  else some (l ++ stopMarker)

/-- `format_output(raw)` from the source: split into lines, strip each,
drop empties, add "<stop>" to any line lacking it, rejoin with newlines. -/
def format_output (raw : Str) : Str :=
  List.intercalate ['\n'] ((splitRaw raw).filterMap keepLine)

/-! ### JSON values and Python dynamic semantics -/

/-- A deserialized JSON value, as produced by `json.load`.  Numbers are
modelled as integers (the progress file only ever holds integers; floats
are outside the model). -/
inductive JValue where
  | null : JValue
  | bool : Bool → JValue
  | num : Int → JValue
  | str : Str → JValue
  | arr : List JValue → JValue
  | obj : List (Str × JValue) → JValue

/-- Exceptions of the embedded Python fragment. -/
inductive PyErr where
  | typeError : PyErr
  | keyError : PyErr
  | indexError : PyErr
  | valueError : PyErr
deriving DecidableEq

/-- Python truth-value testing (`not data`): None, False, zero, and empty
containers are falsy. -/
def pyFalsy : JValue → Bool
  | .null => true
  | .bool b => !b
  | .num n => n = 0
  | .str s => s.isEmpty
  | .arr l => l.isEmpty
  | .obj l => l.isEmpty

/-- Python `data[0]`.  Subscripting a list or string yields the first
element; JSON objects have string keys, so `data[0]` raises KeyError;
scalars are not subscriptable and raise TypeError. -/
def pySub0 : JValue → Except PyErr JValue
  | .arr (x :: _) => .ok x
  | .arr [] => .error .indexError
  | .str (c :: _) => .ok (.str [c])
  | .str [] => .error .indexError
  | .obj _ => .error .keyError
  | _ => .error .typeError

/-- Python `isinstance(x, int)`: true for ints and (because bool is a
subclass of int) for booleans. -/
def isInstInt : JValue → Bool
  | .num _ => true
  | .bool _ => true
  | _ => false

/-- Python `set(data)`: iterate the value.  Lists yield their elements,
strings their characters, dicts their keys; scalars raise TypeError.
The result keeps the element list; the driver only tests membership. -/
def pyIter : JValue → Except PyErr (List JValue)
  | .arr xs => .ok xs
  | .str cs => .ok (cs.map fun c => .str [c])
  | .obj kvs => .ok (kvs.map fun kv => .str kv.1)
  | _ => .error .typeError

/-- `load_progress()` from the source.  `stored = none` models a missing
progress file; `some data` models the deserialized stored value.
Mirrors: return empty set when absent; discard when `not data` or when
`data[0]` is not an int; otherwise `set(data)`. -/
def load_progress (stored : Option JValue) : Except PyErr (List JValue) :=
  match stored with
  | none => .ok []
  | some data =>
    if pyFalsy data then .ok []
    else
      match pySub0 data with
      | .error e => .error e
      | .ok first => if isInstInt first then pyIter data else .ok []

/-- Python `done.add(batch_idx)` on the in-memory progress set, which is
modelled as a duplicate-free list (only membership and the sorted
persisted form are observable). -/
def setAdd (done : List ℕ) (b : ℕ) : List ℕ :=
  if b ∈ done then done else done ++ [b]

/-- `save_progress(done)` from the source: the persisted content is the
sorted list of completed indices (`json.dump(sorted(done), f)`). -/
def save_progress (done : List ℕ) : List ℕ :=
  List.insertionSort (· ≤ ·) done

/-! ### The remote generation client -/

/-- The payload returned by a status poll; modelled by its `status`
field (`status.get("status")`), `none` when the field is absent. -/
structure StatusPayload where
  status : Option Str
deriving DecidableEq

/-- The payload returned by the result fetch: an optional `error` field
and an optional `output` field (`none` models an absent key). -/
structure ResultPayload where
  error : Option JValue
  output : Option Str

/-- Errors signalled by `generate_one` (all RuntimeError in the source,
distinguished here by provenance as the spec does). -/
inductive GenError where
  | transport : GenError
  | jobFailed : StatusPayload → GenError
  | resultError : JValue → GenError
  | py : PyErr → GenError

/-- Outcome of the polling loop in `generate_one`. -/
inductive PollResult where
  | completed : PollResult
  | failed : StatusPayload → PollResult
  | diverged : PollResult
deriving DecidableEq

/-- The status literals of the protocol. -/
def sCOMPLETED : Str := ['C','O','M','P','L','E','T','E','D']

def sFAILED : Str := ['F','A','I','L','E','D']

def sCANCELLED : Str := ['C','A','N','C','E','L','L','E','D']

/-- The poll loop of `generate_one`: check each successive status
payload; break on COMPLETED, raise on FAILED or CANCELLED, keep polling
otherwise.  The input list is the trace of poll responses; exhausting it
without a terminal state models polling forever (`diverged`). -/
def pollLoop : List StatusPayload → PollResult
  | [] => .diverged
  | st :: rest =>
    if st.status = some sCOMPLETED then .completed
    else if st.status = some sFAILED ∨ st.status = some sCANCELLED then .failed st
    else pollLoop rest

/-- Outcome of one `generate_one` call. -/
inductive GenOutcome where
  | returns : Str → GenOutcome
  | raises : GenError → GenOutcome
  | diverges : GenOutcome

/-- `generate_one` from the source, given the trace of poll responses and
the result payload (the submit response contributes only the opaque
request id and is elided).  After COMPLETED: raise when
`result.get("error")` is truthy, otherwise return
`result["output"].strip()`. -/
def generate_one (statuses : List StatusPayload) (result : ResultPayload) :
    GenOutcome :=
  match pollLoop statuses with
  | .diverged => .diverges
  | .failed st => .raises (.jobFailed st)
  | .completed =>
    match result.error with
    | some e =>
      if pyFalsy e then
        match result.output with
        | none => .raises (.py .keyError)
        | some out => .returns (pyStrip out)
      else .raises (.resultError e)
    | none =>
      match result.output with
      | none => .raises (.py .keyError)
      | some out => .returns (pyStrip out)

/-! ### Batch partitioning -/

/-- Python `range(start, stop, step)` as a list, raising ValueError on a
zero step, exactly as `range(0, len(sentences), args.batch_size)` does. -/
def pyRange (start stop step : Int) : Except PyErr (List Int) :=
  if step = 0 then .error .valueError
  else if 0 < step then
    if stop ≤ start then .ok []
    else .ok ((List.range ((stop - start + step - 1) / step).toNat).map
      fun k : ℕ => start + step * (k : ℤ))
  else
    if start ≤ stop then .ok []
    else .ok ((List.range ((start - stop + (-step) - 1) / (-step)).toNat).map
      fun k : ℕ => start + step * (k : ℤ))

/-- Python slice `xs[lo:hi]` for `0 ≤ lo ≤ hi` (the only shape the
source uses: `sentences[i : i + batch_size]`); out-of-range bounds clamp. -/
def pySliceNN (lo hi : Int) (xs : List α) : List α :=
  (xs.take hi.toNat).drop lo.toNat

/-- Python slice `xs[:n]` with a possibly negative `n`
(`pending[: args.n]`). -/
def pySliceTo (n : Int) (xs : List α) : List α :=
  if 0 ≤ n then xs.take n.toNat else xs.take (xs.length - (-n).toNat)

/-- The batch-building loop of `main`:
`for i in range(0, len(sentences), batch_size): batches.append(sentences[i : i + batch_size])`. -/
def mkBatches (sentences : List α) (batchSize : Int) :
    Except PyErr (List (List α)) :=
  match pyRange 0 sentences.length batchSize with
  | .error e => .error e
  | .ok idxs => .ok (idxs.map fun i => pySliceNN i (i + batchSize) sentences)

/-- Reference chunking function: split a list into consecutive chunks of
`b + 1` elements (the last chunk may be shorter).  Proved equal to the
batches `main` builds, and carrier of the partition properties. -/
def chunkPos (b : ℕ) : List α → List (List α)
  | [] => []
  | x :: xs => (x :: xs.take b) :: chunkPos b (xs.drop b)
termination_by l => l.length
decreasing_by simp; omega

/-! ### The batch driver -/

/-- Mutable state of the driver loop in `main`: the in-memory progress
set, the chunks appended to the output file, every progress snapshot
persisted by `save_progress`, and the per-batch OK/FAILED reports. -/
structure RunState where
  done : List ℕ
  output : List Str
  saved : List (List ℕ)
  reports : List (ℕ × Bool)
deriving DecidableEq

/-- One iteration of the driver loop, for batch index `b`.
`remote` is the outcome of `generate_one` for each batch (the prompt is a
function of the batch index, so indexing the oracle by `b` is faithful);
`appendOk b` / `saveOk b` are fault-injection oracles for the output-file
append and the progress save (false models an OSError raised there).
All failures land in the `except Exception` handler: the batch is
reported FAILED and the loop continues.  Note `done.add(batch_idx)` runs
before `save_progress`, so a failed save leaves the index in memory. -/
def stepBatch (remote : ℕ → Except GenError Str) (appendOk saveOk : ℕ → Bool)
    (st : RunState) (b : ℕ) : RunState :=
  match remote b with
  | .error _ => { st with reports := st.reports ++ [(b, false)] }
  | .ok raw =>
    let chunk := format_output raw ++ ['\n']
    if appendOk b then
      let done1 := setAdd st.done b
      if saveOk b then
        { done := done1, output := st.output ++ [chunk],
          saved := st.saved ++ [save_progress done1],
          reports := st.reports ++ [(b, true)] }
      else
        { done := done1, output := st.output ++ [chunk],
          saved := st.saved,
          reports := st.reports ++ [(b, false)] }
    else { st with reports := st.reports ++ [(b, false)] }

/-- The pending-index list of `main`:
`[i for i in range(len(batches)) if i not in done]`. -/
def pendingOf (batchCount : ℕ) (done0 : List ℕ) : List ℕ :=
  (List.range batchCount).filter fun i => decide (i ∉ done0)

/-- The driver loop of `main`, starting from the loaded progress set
`done0`: process `pending[:n]` in order.  (With `n = 0` the source
returns before the loop after printing the dry-run preview; here the
slice is empty and the fold is a no-op, which is the same observable
behaviour.) -/
def runDriver (batches : List (List Str)) (done0 : List ℕ) (n : Int)
    (remote : ℕ → Except GenError Str) (appendOk saveOk : ℕ → Bool) :
    RunState :=
  let toDo := pySliceTo n (pendingOf batches.length done0)
  toDo.foldl (stepBatch remote appendOk saveOk) ⟨done0, [], [], []⟩

/-- The to-do list the driver iterates: `pending[: args.n]`. -/
def toDoOf (batchCount : ℕ) (done0 : List ℕ) (n : Int) : List ℕ :=
  pySliceTo n (pendingOf batchCount done0)

/-- `main` after argument parsing: partition the sentences (a zero batch
size raises ValueError here, before any remote call), then run the
driver loop.  The loaded progress set is passed in directly; `load_progress`
is verified separately. -/
def runMain (sentences : List Str) (batchSize : Int) (n : Int)
    (done0 : List ℕ) (remote : ℕ → Except GenError Str)
    (appendOk saveOk : ℕ → Bool) : Except PyErr RunState :=
  match mkBatches sentences batchSize with
  | .error e => .error e
  | .ok batches => .ok (runDriver batches done0 n remote appendOk saveOk)

/-! ### Concrete inputs used by witnesses and counterexamples -/

/-- Five one-sentence batches (batch contents are irrelevant to the
driver, which consults only the index). -/
def demoBatches5 : List (List Str) := [[['a']], [['b']], [['c']], [['d']], [['e']]]

def demoBatches3 : List (List Str) := [[['a']], [['b']], [['c']]]

def demoBatches2 : List (List Str) := [[['a']], [['b']]]

/-- A remote oracle that always succeeds with the text "x". -/
def okRemote : ℕ → Except GenError Str := fun _ => .ok ['x']

/-- A remote oracle failing batch 0 with a terminal FAILED job status. -/
def failRemote0 : ℕ → Except GenError Str := fun i =>
  if i = 0 then .error (.jobFailed ⟨some sFAILED⟩) else .ok ['x']

def allOk : ℕ → Bool := fun _ => true

/-- Fault injection: the progress save of batch 0 raises. -/
def saveFail0 : ℕ → Bool := fun i => decide (i ≠ 0)

/-- Fault injection: the output append of batch 0 raises. -/
def appendFail0 : ℕ → Bool := fun i => decide (i ≠ 0)

/-- Whether the remote call for batch `b` succeeds. -/
def remoteOk (remote : ℕ → Except GenError Str) (b : ℕ) : Bool :=
  match remote b with
  | .ok _ => true
  | .error _ => false

/-- The raw text the remote call for batch `b` returned (default for a
failed call; only consulted when `remoteOk`). -/
def rawOf (remote : ℕ → Except GenError Str) (b : ℕ) : Str :=
  match remote b with
  | .ok r => r
  | .error _ => []

/-- Whether batch `b` gets through remote generation and the output
append (the point after which `done.add(batch_idx)` has run). -/
def passAppend (remote : ℕ → Except GenError Str) (appendOk : ℕ → Bool)
    (b : ℕ) : Bool :=
  remoteOk remote b && appendOk b

/-- Whether batch `b` completes all three stages and is reported OK. -/
def okFlag (remote : ℕ → Except GenError Str) (appendOk saveOk : ℕ → Bool)
    (b : ℕ) : Bool :=
  remoteOk remote b && appendOk b && saveOk b

/-- A raw text whose single line already ends with two stop markers. -/
def demoDouble : Str := ['x'] ++ stopMarker ++ stopMarker

/-- A result payload carrying an explicit but empty (falsy) error field. -/
def demoEmptyErrResult : ResultPayload := ⟨some (.str []), some ['o', 'k']⟩

/-! ### Facts about `pyStrip` -/

theorem pyStrip_nil : pyStrip [] = [] := rfl

theorem mem_pyStrip {s : Str} {c : Char} (h : c ∈ pyStrip s) : c ∈ s := by
  have h1 : c ∈ s.dropWhile pyIsSpace :=
    (List.rdropWhile_prefix pyIsSpace (s.dropWhile pyIsSpace)).subset h
  exact (List.dropWhile_suffix pyIsSpace).subset h1

theorem dropWhile_head_false {α : Type} {p : α → Bool} :
    ∀ {s : List α} {c : α} {t : List α}, s.dropWhile p = c :: t → p c = false := by
  intro s
  induction s with
  | nil => intro c t h; simp [List.dropWhile] at h
  | cons a s ih =>
    intro c t h
    rw [List.dropWhile_cons] at h
    by_cases hp : p a
    · rw [if_pos hp] at h; exact ih h
    · rw [if_neg hp] at h
      obtain ⟨rfl, -⟩ := List.cons.injEq .. ▸ h
      simpa using hp

theorem pyStrip_head_not_space {s : Str} {c : Char} {t : Str}
    (h : pyStrip s = c :: t) : pyIsSpace c = false := by
  have hpre : pyStrip s <+: s.dropWhile pyIsSpace :=
    List.rdropWhile_prefix pyIsSpace (s.dropWhile pyIsSpace)
  rw [h] at hpre
  obtain ⟨u, hu⟩ := hpre
  exact dropWhile_head_false (t := t ++ u) (by rw [← hu]; simp)

theorem pyStrip_getLast_not_space {s : Str} (h : pyStrip s ≠ []) :
    pyIsSpace ((pyStrip s).getLast h) = false := by
  have := List.rdropWhile_last_not pyIsSpace (s.dropWhile pyIsSpace) h
  simpa using this

theorem pyStrip_eq_self {s : Str}
    (h1 : ∀ c t, s = c :: t → pyIsSpace c = false)
    (h2 : ∀ h : s ≠ [], pyIsSpace (s.getLast h) = false) :
    pyStrip s = s := by
  have hd : s.dropWhile pyIsSpace = s := by
    rw [List.dropWhile_eq_self_iff]
    intro hl
    cases s with
    | nil => simp at hl
    | cons c t => simpa using h1 c t rfl
  rw [pyStrip, hd, List.rdropWhile_eq_self_iff]
  intro hl
  simpa using h2 hl

theorem pyStrip_idem (s : Str) : pyStrip (pyStrip s) = pyStrip s :=
  pyStrip_eq_self (fun _ _ h' => pyStrip_head_not_space h')
    (fun hne => pyStrip_getLast_not_space hne)

/-! ### Facts about `splitRaw` and `format_output` -/

theorem splitRaw_ne_nil (s : Str) : splitRaw s ≠ [] := by
  induction s with
  | nil => simp [splitRaw]
  | cons c rest ih =>
    rw [splitRaw]
    by_cases h : isBreak c
    · simp [h]
    · rw [if_neg h]
      cases hs : splitRaw rest with
      | nil => simp [consHead]
      | cons l ls => simp [consHead]

theorem mem_splitRaw_not_break {s : Str} {l : Str} (hl : l ∈ splitRaw s) :
    ∀ c ∈ l, isBreak c = false := by
  induction s generalizing l with
  | nil =>
    simp only [splitRaw, List.mem_singleton] at hl
    subst hl; simp
  | cons a rest ih =>
    rw [splitRaw] at hl
    by_cases h : isBreak a
    · rw [if_pos h] at hl
      rcases List.mem_cons.mp hl with h0 | h0
      · subst h0; simp
      · exact ih h0
    · rw [if_neg h] at hl
      cases hs : splitRaw rest with
      | nil => exact absurd hs (splitRaw_ne_nil rest)
      | cons m ms =>
        rw [hs, consHead] at hl
        rcases List.mem_cons.mp hl with h0 | h0
        · subst h0
          intro c hc
          rcases List.mem_cons.mp hc with rfl | hc
          · simpa using h
          · exact ih (hs ▸ List.mem_cons_self m ms) c hc
        · exact ih (hs ▸ List.mem_cons.mpr (Or.inr h0))

theorem splitRaw_of_no_break {l : Str} (h : ∀ c ∈ l, isBreak c = false) :
    splitRaw l = [l] := by
  induction l with
  | nil => rfl
  | cons c t ih =>
    have hc : isBreak c = false := h c (List.mem_cons_self c t)
    rw [splitRaw, if_neg (by simp [hc]),
      ih (fun d hd => h d (List.mem_cons.mpr (Or.inr hd))), consHead]

theorem splitRaw_append_nl {l : Str} (s : Str) (h : ∀ c ∈ l, isBreak c = false) :
    splitRaw (l ++ '\n' :: s) = l :: splitRaw s := by
  induction l with
  | nil =>
    rw [List.nil_append, splitRaw, if_pos (by decide)]
  | cons c t ih =>
    have hc : isBreak c = false := h c (List.mem_cons_self c t)
    rw [List.cons_append, splitRaw, if_neg (by simp [hc]),
      ih (fun d hd => h d (List.mem_cons.mpr (Or.inr hd))), consHead]

theorem intercalate_nil (sep : Str) : List.intercalate sep [] = [] := rfl

theorem intercalate_single (sep : Str) (l : Str) :
    List.intercalate sep [l] = l := by
  simp [List.intercalate, List.intersperse]

theorem intercalate_cons₂ (sep : Str) (a b : Str) (t : List Str) :
    List.intercalate sep (a :: b :: t) = a ++ sep ++ List.intercalate sep (b :: t) := by
  simp [List.intercalate, List.intersperse]

theorem splitRaw_intercalate :
    ∀ {ls : List Str}, ls ≠ [] → (∀ l ∈ ls, ∀ c ∈ l, isBreak c = false) →
      splitRaw (List.intercalate ['\n'] ls) = ls := by
  intro ls
  induction ls with
  | nil => intro h; exact absurd rfl h
  | cons a t ih =>
    intro _ hbf
    cases t with
    | nil =>
      rw [intercalate_single]
      exact splitRaw_of_no_break (hbf a (List.mem_cons_self a []))
    | cons b t2 =>
      rw [intercalate_cons₂, List.append_assoc, List.singleton_append,
        splitRaw_append_nl _ (hbf a (List.mem_cons_self a (b :: t2))),
        ih (by simp) (fun l hl => hbf l (List.mem_cons.mpr (Or.inr hl)))]

theorem stopMarker_not_break : ∀ c ∈ stopMarker, isBreak c = false := by decide

theorem stopMarker_suffix_append (l : Str) :
    stopMarker.isSuffixOf (l ++ stopMarker) = true :=
  List.isSuffixOf_iff_suffix.mpr ⟨l, rfl⟩

theorem keepLine_some_props {m l : Str} (h : keepLine m = some l) :
    pyStrip l = l ∧ l ≠ [] ∧ stopMarker.isSuffixOf l = true ∧
      (∀ c ∈ l, c ∈ m ∨ c ∈ stopMarker) := by
  rw [keepLine] at h
  by_cases hempty : pyStrip m = []
  · simp [hempty] at h
  · rw [if_neg hempty] at h
    by_cases hsuf : stopMarker.isSuffixOf (pyStrip m) = true
    · rw [if_pos hsuf] at h
      obtain rfl : pyStrip m = l := Option.some.injEq .. ▸ h
      exact ⟨pyStrip_idem m, hempty, hsuf,
        fun c hc => Or.inl (mem_pyStrip hc)⟩
    · rw [if_neg hsuf] at h
      obtain rfl : pyStrip m ++ stopMarker = l := Option.some.injEq .. ▸ h
      refine ⟨?_, by simp [stopMarker], stopMarker_suffix_append _, ?_⟩
      · apply pyStrip_eq_self
        · intro c t hct
          cases hm : pyStrip m with
          | nil => exact absurd hm hempty
          | cons c0 t0 =>
            rw [hm, List.cons_append] at hct
            obtain ⟨rfl, -⟩ := List.cons.injEq .. ▸ hct
            exact pyStrip_head_not_space hm
        · intro hne
          have hlast : (pyStrip m ++ stopMarker).getLast hne = '>' := by
            have h2 : (pyStrip m ++ stopMarker).getLast? = some '>' := by
              rw [List.getLast?_append_of_ne_nil _ (by simp [stopMarker])]
              rfl
            rw [List.getLast?_eq_getLast _ hne] at h2
            exact (Option.some.injEq .. ▸ h2)
          rw [hlast]; decide
      · intro c hc
        rcases List.mem_append.mp hc with hc | hc
        · exact Or.inl (mem_pyStrip hc)
        · exact Or.inr hc

theorem keepLine_fixed {l : Str} (h1 : pyStrip l = l) (h2 : l ≠ [])
    (h3 : stopMarker.isSuffixOf l = true) : keepLine l = some l := by
  rw [keepLine]
  simp only [h1, if_neg h2, h3, if_pos]

theorem filterMap_keepLine_id :
    ∀ {ls : List Str}, (∀ l ∈ ls, keepLine l = some l) →
      ls.filterMap keepLine = ls := by
  intro ls
  induction ls with
  | nil => intro _; rfl
  | cons a t ih =>
    intro h
    rw [List.filterMap_cons, h a (List.mem_cons_self a t),
      ih (fun l hl => h l (List.mem_cons.mpr (Or.inr hl)))]

/-- C8: the output formatter is idempotent. -/
theorem format_output_idem (raw : Str) :
    format_output (format_output raw) = format_output raw := by
  rcases eq_or_ne ((splitRaw raw).filterMap keepLine) [] with h | h
  · have h0 : format_output raw = [] := by
      rw [format_output, h]; rfl
    rw [h0]; rfl
  · have props : ∀ l ∈ (splitRaw raw).filterMap keepLine,
        pyStrip l = l ∧ l ≠ [] ∧ stopMarker.isSuffixOf l = true ∧
          ∀ c ∈ l, isBreak c = false := by
      intro l hl
      obtain ⟨m, hm, hml⟩ := List.mem_filterMap.mp hl
      obtain ⟨p1, p2, p3, p4⟩ := keepLine_some_props hml
      refine ⟨p1, p2, p3, fun c hc => ?_⟩
      rcases p4 c hc with h0 | h0
      · exact mem_splitRaw_not_break hm c h0
      · exact stopMarker_not_break c h0
    have hsplit : splitRaw (List.intercalate ['\n'] ((splitRaw raw).filterMap keepLine))
        = (splitRaw raw).filterMap keepLine :=
      splitRaw_intercalate h (fun l hl => (props l hl).2.2.2)
    have hfix : ((splitRaw raw).filterMap keepLine).filterMap keepLine
        = (splitRaw raw).filterMap keepLine :=
      filterMap_keepLine_id (fun l hl =>
        keepLine_fixed (props l hl).1 (props l hl).2.1 (props l hl).2.2.1)
    show List.intercalate ['\n']
        ((splitRaw (format_output raw)).filterMap keepLine) = format_output raw
    rw [show format_output raw
        = List.intercalate ['\n'] ((splitRaw raw).filterMap keepLine) from rfl,
      hsplit, hfix]

/-! ### Facts about the driver loop -/

theorem setAdd_mem {done : List ℕ} {b a : ℕ} :
    a ∈ setAdd done b ↔ a = b ∨ a ∈ done := by
  rw [setAdd]
  split
  · constructor
    · exact Or.inr
    · rintro (rfl | h)
      · assumption
      · exact h
  · rw [List.mem_append, List.mem_singleton, or_comm]

theorem stepBatch_reports (remote : ℕ → Except GenError Str)
    (appendOk saveOk : ℕ → Bool) (st : RunState) (b : ℕ) :
    (stepBatch remote appendOk saveOk st b).reports
      = st.reports ++ [(b, okFlag remote appendOk saveOk b)] := by
  cases hr : remote b with
  | error e => simp [stepBatch, hr, okFlag, remoteOk]
  | ok raw =>
    by_cases ha : appendOk b
    · by_cases hs : saveOk b
      · simp [stepBatch, hr, ha, hs, okFlag, remoteOk]
      · simp [stepBatch, hr, ha, hs, okFlag, remoteOk]
    · simp [stepBatch, hr, ha, okFlag, remoteOk]

theorem stepBatch_done (remote : ℕ → Except GenError Str)
    (appendOk saveOk : ℕ → Bool) (st : RunState) (b : ℕ) :
    (stepBatch remote appendOk saveOk st b).done
      = if passAppend remote appendOk b then setAdd st.done b else st.done := by
  cases hr : remote b with
  | error e => simp [stepBatch, hr, passAppend, remoteOk]
  | ok raw =>
    by_cases ha : appendOk b
    · by_cases hs : saveOk b
      · simp [stepBatch, hr, ha, hs, passAppend, remoteOk]
      · simp [stepBatch, hr, ha, hs, passAppend, remoteOk]
    · simp [stepBatch, hr, ha, passAppend, remoteOk]

theorem stepBatch_output (remote : ℕ → Except GenError Str)
    (appendOk saveOk : ℕ → Bool) (st : RunState) (b : ℕ) :
    (stepBatch remote appendOk saveOk st b).output
      = st.output ++ (if passAppend remote appendOk b then
          [format_output (rawOf remote b) ++ ['\n']] else []) := by
  cases hr : remote b with
  | error e => simp [stepBatch, hr, passAppend, remoteOk]
  | ok raw =>
    by_cases ha : appendOk b
    · by_cases hs : saveOk b
      · simp [stepBatch, hr, ha, hs, passAppend, remoteOk, rawOf]
      · simp [stepBatch, hr, ha, hs, passAppend, remoteOk, rawOf]
    · simp [stepBatch, hr, ha, passAppend, remoteOk]

theorem stepBatch_saved (remote : ℕ → Except GenError Str)
    (appendOk saveOk : ℕ → Bool) (st : RunState) (b : ℕ) :
    (stepBatch remote appendOk saveOk st b).saved
      = st.saved ++ (if okFlag remote appendOk saveOk b then
          [save_progress (setAdd st.done b)] else []) := by
  cases hr : remote b with
  | error e => simp [stepBatch, hr, okFlag, remoteOk]
  | ok raw =>
    by_cases ha : appendOk b
    · by_cases hs : saveOk b
      · simp [stepBatch, hr, ha, hs, okFlag, remoteOk]
      · simp [stepBatch, hr, ha, hs, okFlag, remoteOk]
    · simp [stepBatch, hr, ha, okFlag, remoteOk]

theorem stepBatch_done_mono (remote : ℕ → Except GenError Str)
    (appendOk saveOk : ℕ → Bool) (st : RunState) (b : ℕ) :
    st.done ⊆ (stepBatch remote appendOk saveOk st b).done := by
  rw [stepBatch_done]
  split
  · intro a ha
    rw [setAdd]
    split
    · exact ha
    · exact List.mem_append_left _ ha
  · exact fun a ha => ha

theorem foldl_reports (remote : ℕ → Except GenError Str)
    (appendOk saveOk : ℕ → Bool) :
    ∀ (l : List ℕ) (st : RunState),
      (l.foldl (stepBatch remote appendOk saveOk) st).reports
        = st.reports ++ l.map fun b => (b, okFlag remote appendOk saveOk b) := by
  intro l
  induction l with
  | nil => intro st; simp
  | cons b t ih =>
    intro st
    rw [List.foldl_cons, ih, stepBatch_reports, List.map_cons,
      List.append_assoc, List.singleton_append]

theorem foldl_done_mem (remote : ℕ → Except GenError Str)
    (appendOk saveOk : ℕ → Bool) :
    ∀ (l : List ℕ) (st : RunState) (a : ℕ),
      a ∈ (l.foldl (stepBatch remote appendOk saveOk) st).done
        ↔ a ∈ st.done ∨ (a ∈ l ∧ passAppend remote appendOk a = true) := by
  intro l
  induction l with
  | nil => intro st a; simp
  | cons b t ih =>
    intro st a
    rw [List.foldl_cons, ih, stepBatch_done]
    by_cases hp : passAppend remote appendOk b
    · rw [if_pos hp]
      by_cases hab : a = b
      · subst hab; simp [hp, setAdd_mem]
      · simp only [setAdd_mem, List.mem_cons]
        constructor
        · rintro ((rfl | h) | h)
          · exact absurd rfl hab
          · exact Or.inl h
          · exact Or.inr ⟨Or.inr h.1, h.2⟩
        · rintro (h | ⟨rfl | h, hpa⟩)
          · exact Or.inl (Or.inr h)
          · exact absurd rfl hab
          · exact Or.inr ⟨h, hpa⟩
    · rw [if_neg hp]
      by_cases hab : a = b
      · subst hab
        simp only [List.mem_cons]
        constructor
        · rintro (h | h)
          · exact Or.inl h
          · exact Or.inr ⟨Or.inr h.1, h.2⟩
        · rintro (h | ⟨-, hpa⟩)
          · exact Or.inl h
          · exact absurd hpa (by simpa using hp)
      · simp only [List.mem_cons]
        constructor
        · rintro (h | h)
          · exact Or.inl h
          · exact Or.inr ⟨Or.inr h.1, h.2⟩
        · rintro (h | ⟨rfl | h, hpa⟩)
          · exact Or.inl h
          · exact absurd rfl hab
          · exact Or.inr ⟨h, hpa⟩

theorem foldl_output (remote : ℕ → Except GenError Str)
    (appendOk saveOk : ℕ → Bool) :
    ∀ (l : List ℕ) (st : RunState),
      (l.foldl (stepBatch remote appendOk saveOk) st).output
        = st.output ++ (l.filter (passAppend remote appendOk)).map
            (fun b => format_output (rawOf remote b) ++ ['\n']) := by
  intro l
  induction l with
  | nil => intro st; simp
  | cons b t ih =>
    intro st
    rw [List.foldl_cons, ih, stepBatch_output, List.filter_cons]
    by_cases hp : passAppend remote appendOk b
    · rw [if_pos hp, if_pos (by simpa using hp), List.map_cons,
        List.append_assoc, List.singleton_append]
    · rw [if_neg hp, if_neg (by simpa using hp), List.append_nil]

theorem foldl_saved_sub (remote : ℕ → Except GenError Str)
    (appendOk saveOk : ℕ → Bool) :
    ∀ (l : List ℕ) (st : RunState),
      (∀ S ∈ st.saved, ∀ a ∈ S, a ∈ st.done) →
      ∀ S ∈ (l.foldl (stepBatch remote appendOk saveOk) st).saved,
        ∀ a ∈ S, a ∈ (l.foldl (stepBatch remote appendOk saveOk) st).done := by
  intro l
  induction l with
  | nil => intro st hinv; simpa using hinv
  | cons b t ih =>
    intro st hinv
    rw [List.foldl_cons]
    apply ih
    intro S hS a haS
    rw [stepBatch_saved] at hS
    rcases List.mem_append.mp hS with hS | hS
    · exact stepBatch_done_mono remote appendOk saveOk st b (hinv S hS a haS)
    · by_cases hok : okFlag remote appendOk saveOk b
      · rw [if_pos hok, List.mem_singleton] at hS
        subst hS
        rw [save_progress, List.mem_insertionSort] at haS
        rw [stepBatch_done, if_pos (by
          revert hok; rw [okFlag, passAppend]
          intro hok
          exact Bool.and_elim_left hok)]
        exact haS
      · rw [if_neg hok] at hS
        simp at hS

/-! ### Facts about batch partitioning -/

theorem chunkPos_flatten {α : Type} (b : ℕ) (l : List α) :
    (chunkPos b l).flatten = l := by
  suffices h : ∀ (n : ℕ) (l : List α), l.length = n → (chunkPos b l).flatten = l
    from h l.length l rfl
  intro n
  induction n using Nat.strong_induction_on with
  | _ n ih =>
    intro l hn
    cases l with
    | nil => simp [chunkPos]
    | cons x xs =>
      rw [chunkPos, List.flatten_cons,
        ih (xs.drop b).length (by simp only [List.length_drop, List.length_cons] at hn ⊢; omega) (xs.drop b) rfl]
      simp

theorem chunkPos_length {α : Type} (b : ℕ) (l : List α) :
    (chunkPos b l).length = (l.length + b) / (b + 1) := by
  suffices h : ∀ (n : ℕ) (l : List α), l.length = n →
      (chunkPos b l).length = (l.length + b) / (b + 1)
    from h l.length l rfl
  intro n
  induction n using Nat.strong_induction_on with
  | _ n ih =>
    intro l hn
    cases l with
    | nil => simp [chunkPos, Nat.div_eq_of_lt]
    | cons x xs =>
      rw [chunkPos, List.length_cons,
        ih (xs.drop b).length (by simp only [List.length_drop, List.length_cons] at hn ⊢; omega) (xs.drop b) rfl]
      simp only [List.length_drop, List.length_cons]
      by_cases hb : b ≤ xs.length
      · rw [show xs.length - b + b = xs.length from Nat.sub_add_cancel hb,
          show xs.length + 1 + b = xs.length + (b + 1) by omega,
          Nat.add_div_right _ (Nat.succ_pos b)]
      · rw [show xs.length - b = 0 by omega, Nat.zero_add,
          Nat.div_eq_of_lt (by omega),
          Nat.div_eq_of_lt_le (k := 1) (by omega) (by omega)]

theorem chunkPos_getD {α : Type} (b : ℕ) (l : List α) (i : ℕ) :
    (chunkPos b l).getD i [] = (l.drop (i * (b + 1))).take (b + 1) := by
  suffices h : ∀ (n : ℕ) (l : List α) (i : ℕ), l.length = n →
      (chunkPos b l).getD i [] = (l.drop (i * (b + 1))).take (b + 1)
    from h l.length l i rfl
  intro n
  induction n using Nat.strong_induction_on with
  | _ n ih =>
    intro l i hn
    cases l with
    | nil => simp [chunkPos]
    | cons x xs =>
      rw [chunkPos]
      cases i with
      | zero => simp
      | succ j =>
        rw [List.getD_cons_succ,
          ih (xs.drop b).length (by simp only [List.length_drop, List.length_cons] at hn ⊢; omega) (xs.drop b) j rfl,
          List.drop_drop,
          show (j + 1) * (b + 1) = b + j * (b + 1) + 1 by ring,
          List.drop_succ_cons]

theorem pyRange_pos (n b : ℕ) (hb : 1 ≤ b) :
    pyRange 0 n b = .ok ((List.range ((n + b - 1) / b)).map
      fun k : ℕ => (b : ℤ) * (k : ℤ)) := by
  rw [pyRange, if_neg (by omega), if_pos (by omega)]
  by_cases hn : n = 0
  · subst hn
    rw [if_pos (by omega)]
    rw [show (0 + b - 1) / b = 0 from Nat.div_eq_of_lt (by omega)]
    simp
  · rw [if_neg (by omega)]
    have harg : ((n : ℤ) - 0 + b - 1) = ((n + b - 1 : ℕ) : ℤ) := by
      push_cast [Nat.cast_sub (by omega : 1 ≤ n + b)]
      ring
    rw [harg, ← Int.ofNat_ediv, Int.toNat_ofNat]
    simp only [zero_add]

theorem mkBatches_eq_chunkPos {α : Type} (s : List α) (b : Int) (hb : 1 ≤ b) :
    mkBatches s b = .ok (chunkPos (b.toNat - 1) s) := by
  obtain ⟨bn, rfl⟩ : ∃ bn : ℕ, b = (bn : ℤ) :=
    ⟨b.toNat, (Int.toNat_of_nonneg (by omega)).symm⟩
  have hbn : 1 ≤ bn := by exact_mod_cast hb
  simp only [Int.toNat_ofNat]
  rw [mkBatches, pyRange_pos s.length bn hbn]
  dsimp only
  congr 1
  apply List.ext_getElem
  · rw [List.length_map, List.length_map, List.length_range, chunkPos_length,
      show bn - 1 + 1 = bn from Nat.sub_add_cancel hbn]
    congr 1
    omega
  · intro i h1 h2
    rw [List.getElem_map, List.getElem_map, List.getElem_range]
    rw [← List.getD_eq_getElem (chunkPos (bn - 1) s) [] h2, chunkPos_getD]
    show pySliceNN ((bn : ℤ) * i) ((bn : ℤ) * i + bn) s
      = (s.drop (i * (bn - 1 + 1))).take (bn - 1 + 1)
    rw [pySliceNN,
      show ((bn : ℤ) * i + bn).toNat = bn * i + bn by omega,
      show ((bn : ℤ) * i).toNat = bn * i by omega,
      List.drop_take]
    rw [show bn * i + bn - bn * i = bn by omega,
      show i * (bn - 1 + 1) = bn * i by
        rw [Nat.sub_add_cancel hbn]; ring,
      show bn - 1 + 1 = bn from Nat.sub_add_cancel hbn]

/-! ### Driver-level lemmas -/

theorem runDriver_unfold (batches : List (List Str)) (done0 : List ℕ)
    (n : Int) (remote : ℕ → Except GenError Str) (appendOk saveOk : ℕ → Bool) :
    runDriver batches done0 n remote appendOk saveOk
      = (toDoOf batches.length done0 n).foldl
          (stepBatch remote appendOk saveOk) ⟨done0, [], [], []⟩ := rfl

theorem runDriver_reports (batches : List (List Str)) (done0 : List ℕ)
    (n : Int) (remote : ℕ → Except GenError Str) (appendOk saveOk : ℕ → Bool) :
    (runDriver batches done0 n remote appendOk saveOk).reports
      = (toDoOf batches.length done0 n).map
          fun b => (b, okFlag remote appendOk saveOk b) := by
  rw [runDriver_unfold, foldl_reports]
  rfl

theorem runDriver_done_mem (batches : List (List Str)) (done0 : List ℕ)
    (n : Int) (remote : ℕ → Except GenError Str) (appendOk saveOk : ℕ → Bool)
    (a : ℕ) :
    a ∈ (runDriver batches done0 n remote appendOk saveOk).done
      ↔ a ∈ done0 ∨ (a ∈ toDoOf batches.length done0 n ∧
          passAppend remote appendOk a = true) := by
  rw [runDriver_unfold, foldl_done_mem]

theorem runDriver_output (batches : List (List Str)) (done0 : List ℕ)
    (n : Int) (remote : ℕ → Except GenError Str) (appendOk saveOk : ℕ → Bool) :
    (runDriver batches done0 n remote appendOk saveOk).output
      = ((toDoOf batches.length done0 n).filter (passAppend remote appendOk)).map
          (fun b => format_output (rawOf remote b) ++ ['\n']) := by
  rw [runDriver_unfold, foldl_output]
  rfl

theorem runDriver_saved_mem (batches : List (List Str)) (done0 : List ℕ)
    (n : Int) (remote : ℕ → Except GenError Str) (appendOk saveOk : ℕ → Bool) :
    ∀ S ∈ (runDriver batches done0 n remote appendOk saveOk).saved, ∀ a ∈ S,
      a ∈ done0 ∨ (a ∈ toDoOf batches.length done0 n ∧
        passAppend remote appendOk a = true) := by
  intro S hS a haS
  rw [runDriver_unfold] at hS
  have h1 := foldl_saved_sub remote appendOk saveOk
    (toDoOf batches.length done0 n) ⟨done0, [], [], []⟩ (by simp) S hS a haS
  rw [foldl_done_mem] at h1
  exact h1

theorem runDriver_nil (done0 : List ℕ) (n : Int)
    (remote : ℕ → Except GenError Str) (appendOk saveOk : ℕ → Bool) :
    runDriver [] done0 n remote appendOk saveOk = ⟨done0, [], [], []⟩ := by
  rw [runDriver_unfold, toDoOf, pendingOf]
  simp only [List.length_nil, List.range_zero, List.filter_nil]
  rw [pySliceTo]
  split <;> simp [List.take_nil]

/-! ### Claim C1 -/

/-- C1: for every batch list, loaded progress set, and run limit n ≥ 1,
the driver attempts exactly `pending[:n]` — the first min(n, len(pending))
pending indices — in ascending order, where pending lists the batch
indices not in the progress set in ascending order; indices in the
progress set are never processed.  (The batch list arises from an
arbitrary sentence sequence and batch size; only its length matters to
index selection, so it is quantified directly.) -/
theorem C1_pending_order (batches : List (List Str)) (done0 : List ℕ)
    (n : Int) (hn : 1 ≤ n) (remote : ℕ → Except GenError Str)
    (appendOk saveOk : ℕ → Bool) :
    (runDriver batches done0 n remote appendOk saveOk).reports.map Prod.fst
        = (pendingOf batches.length done0).take n.toNat ∧
    toDoOf batches.length done0 n
        = (pendingOf batches.length done0).take n.toNat ∧
    ((pendingOf batches.length done0).take n.toNat).length
        = min n.toNat (pendingOf batches.length done0).length ∧
    List.Sorted (· < ·) ((pendingOf batches.length done0).take n.toNat) ∧
    (∀ i ∈ done0, i ∉ (pendingOf batches.length done0).take n.toNat) := by
  have hslice : toDoOf batches.length done0 n
      = (pendingOf batches.length done0).take n.toNat := by
    rw [toDoOf, pySliceTo, if_pos (by omega)]
  refine ⟨?_, hslice, ?_, ?_, ?_⟩
  · rw [runDriver_reports, hslice, List.map_map]
    simp [Function.comp_def]
  · rw [List.length_take]
  · have hsorted : List.Sorted (· < ·) (pendingOf batches.length done0) :=
      (List.pairwise_lt_range batches.length).filter _
    exact hsorted.sublist (List.take_sublist _ _)
  · intro i hi hmem
    have h1 : i ∈ pendingOf batches.length done0 :=
      (List.take_sublist _ _).subset hmem
    rw [pendingOf, List.mem_filter] at h1
    have h2 : i ∉ done0 := by simpa using h1.2
    exact h2 hi

/-- C1 witness: with progress {0,2} out of 5 batches and n = 10, the
driver processes exactly the indices 1, 3, 4 in that order, and neither
0 nor 2. -/
theorem C1_pending_order_witness :
    (runDriver demoBatches5 [0, 2] 10 okRemote allOk allOk).reports.map Prod.fst
        = [1, 3, 4] ∧
    0 ∉ (runDriver demoBatches5 [0, 2] 10 okRemote allOk allOk).reports.map Prod.fst ∧
    2 ∉ (runDriver demoBatches5 [0, 2] 10 okRemote allOk allOk).reports.map Prod.fst := by
  have h := C1_pending_order demoBatches5 [0, 2] 10 (by decide) okRemote allOk allOk
  refine ⟨h.1.trans (by decide), ?_, ?_⟩
  · rw [h.1]
    exact h.2.2.2.2 0 (by decide)
  · rw [h.1]
    exact h.2.2.2.2 2 (by decide)

/-! ### Claim C2 -/

/-- C2 (amended): mark-after-append holds — every index in any persisted
progress snapshot either was already complete at load time or had its
batch's formatted output appended earlier in the run.  But when an
output append succeeds and the following progress save fails, the index
stays in the in-memory set (`done.add` runs before `save_progress`), so
it is included in the next successful save rather than being absent from
every later persisted state: membership in the final in-memory set
depends only on append success, not save success. -/
theorem C2_mark_after_append (batches : List (List Str)) (done0 : List ℕ)
    (n : Int) (remote : ℕ → Except GenError Str) (appendOk saveOk : ℕ → Bool) :
    (∀ S ∈ (runDriver batches done0 n remote appendOk saveOk).saved, ∀ a ∈ S,
        a ∈ done0 ∨ (a ∈ toDoOf batches.length done0 n ∧
          remoteOk remote a = true ∧ appendOk a = true)) ∧
    (∀ a, a ∈ (runDriver batches done0 n remote appendOk saveOk).done ↔
        a ∈ done0 ∨ (a ∈ toDoOf batches.length done0 n ∧
          remoteOk remote a = true ∧ appendOk a = true)) := by
  constructor
  · intro S hS a haS
    have h := runDriver_saved_mem batches done0 n remote appendOk saveOk S hS a haS
    rcases h with h | ⟨h1, h2⟩
    · exact Or.inl h
    · rw [passAppend, Bool.and_eq_true] at h2
      exact Or.inr ⟨h1, h2.1, h2.2⟩
  · intro a
    rw [runDriver_done_mem]
    constructor
    · rintro (h | ⟨h1, h2⟩)
      · exact Or.inl h
      · rw [passAppend, Bool.and_eq_true] at h2
        exact Or.inr ⟨h1, h2.1, h2.2⟩
    · rintro (h | ⟨h1, h2, h3⟩)
      · exact Or.inl h
      · exact Or.inr ⟨h1, by rw [passAppend, h2, h3]; rfl⟩

/-- C2 witness: in a fault-free two-batch run from empty progress, the
first persisted snapshot is [0], and its member 0 is indeed a batch of
this run whose remote call and output append succeeded. -/
theorem C2_mark_after_append_witness :
    0 ∈ ([] : List ℕ) ∨ (0 ∈ toDoOf demoBatches2.length [] 10 ∧
      remoteOk okRemote 0 = true ∧ allOk 0 = true) :=
  (C2_mark_after_append demoBatches2 [] 10 okRemote allOk allOk).1
    [0] (by decide) 0 (by decide)

/-- C2 counterexample: batch 0's output append succeeds but its progress
save fails (`saveFail0`); batch 1 then completes normally.  The claim
says index 0 is then absent from every later persisted progress state of
the run, yet the run's single persisted snapshot — written by batch 1's
save — is [0, 1], which contains 0. -/
theorem C2_counterexample :
    allOk 0 = true ∧ saveFail0 0 = false ∧
    (runDriver demoBatches2 [] 10 okRemote allOk saveFail0).saved = [[0, 1]] := by
  decide

/-! ### Claim C3 -/

/-- C3 (amended): a storage error raised during batch processing (a
failure of the output-file append or of the progress save) is caught by
the driver's per-batch handler exactly like a remote error: the batch is
reported FAILED and every remaining pending batch is still processed;
the run is not aborted.  (Only failures raised before the loop — loading
sentences or the progress file — propagate.) -/
theorem C3_storage_error_caught (batches : List (List Str)) (done0 : List ℕ)
    (n : Int) (remote : ℕ → Except GenError Str) (appendOk saveOk : ℕ → Bool)
    (k : ℕ) (hk : appendOk k = false ∨ saveOk k = false) :
    (runDriver batches done0 n remote appendOk saveOk).reports.map Prod.fst
        = toDoOf batches.length done0 n ∧
    (k ∈ toDoOf batches.length done0 n →
      (k, false) ∈ (runDriver batches done0 n remote appendOk saveOk).reports) := by
  constructor
  · rw [runDriver_reports, List.map_map]
    simp [Function.comp_def]
  · intro hmem
    rw [runDriver_reports]
    have hflag : okFlag remote appendOk saveOk k = false := by
      rw [okFlag]
      rcases hk with h | h <;> simp [h]
    exact hflag ▸ List.mem_map_of_mem (fun b => (b, okFlag remote appendOk saveOk b)) hmem

/-- C3 witness: with the output append of batch 0 failing, both pending
batches are still attempted and batch 0 is reported FAILED. -/
theorem C3_storage_error_caught_witness :
    (runDriver demoBatches2 [] 10 okRemote appendFail0 allOk).reports.map Prod.fst
        = toDoOf demoBatches2.length [] 10 ∧
    (0, false) ∈ (runDriver demoBatches2 [] 10 okRemote appendFail0 allOk).reports := by
  have h := C3_storage_error_caught demoBatches2 [] 10 okRemote appendFail0 allOk
    0 (Or.inl rfl)
  exact ⟨h.1, h.2 (by decide)⟩

/-- C3 counterexample: the output-file append of batch 0 raises a
storage error inside the loop, yet the run does not abort: batch 1 is
still processed and reported OK, and its output and progress are
persisted — refuting "propagates out of the driver loop and aborts the
whole run". -/
theorem C3_counterexample :
    (runDriver demoBatches2 [] 10 okRemote appendFail0 allOk).reports
        = [(0, false), (1, true)] ∧
    (runDriver demoBatches2 [] 10 okRemote appendFail0 allOk).saved = [[1]] := by
  decide

/-! ### Claim C5 -/

/-- C5: when one batch's remote generation raises (transport, job, or
result error), the driver reports that batch FAILED and continues: every
pending batch is still attempted, the failed batch's membership in the
in-memory progress set is unchanged from load time, and every other
batch's final progress membership is determined solely by its own
outcome. -/
theorem C5_batch_failure_isolated (batches : List (List Str)) (done0 : List ℕ)
    (n : Int) (remote : ℕ → Except GenError Str) (appendOk saveOk : ℕ → Bool)
    (k : ℕ) (e : GenError) (hk : remote k = .error e) :
    (runDriver batches done0 n remote appendOk saveOk).reports.map Prod.fst
        = toDoOf batches.length done0 n ∧
    (k ∈ toDoOf batches.length done0 n →
      (k, false) ∈ (runDriver batches done0 n remote appendOk saveOk).reports) ∧
    (k ∈ (runDriver batches done0 n remote appendOk saveOk).done ↔ k ∈ done0) ∧
    (∀ j, j ≠ k →
      (j ∈ (runDriver batches done0 n remote appendOk saveOk).done ↔
        j ∈ done0 ∨ (j ∈ toDoOf batches.length done0 n ∧
          remoteOk remote j = true ∧ appendOk j = true))) := by
  have hko : remoteOk remote k = false := by rw [remoteOk, hk]
  refine ⟨?_, ?_, ?_, ?_⟩
  · rw [runDriver_reports, List.map_map]
    simp [Function.comp_def]
  · intro hmem
    rw [runDriver_reports]
    have hflag : okFlag remote appendOk saveOk k = false := by
      rw [okFlag, hko]
      rfl
    exact hflag ▸ List.mem_map_of_mem (fun b => (b, okFlag remote appendOk saveOk b)) hmem
  · rw [runDriver_done_mem]
    constructor
    · rintro (h | ⟨-, h2⟩)
      · exact h
      · rw [passAppend, hko] at h2
        simp at h2
    · exact Or.inl
  · intro j _
    rw [runDriver_done_mem]
    constructor
    · rintro (h | ⟨h1, h2⟩)
      · exact Or.inl h
      · rw [passAppend, Bool.and_eq_true] at h2
        exact Or.inr ⟨h1, h2.1, h2.2⟩
    · rintro (h | ⟨h1, h2, h3⟩)
      · exact Or.inl h
      · exact Or.inr ⟨h1, by rw [passAppend, h2, h3]; rfl⟩

/-- C5 witness: three pending batches, batch 0 fails with a terminal
FAILED job; the run still attempts [0, 1, 2], reports batch 0 FAILED,
and the final progress contains 1 and 2 but not 0. -/
theorem C5_batch_failure_isolated_witness :
    (runDriver demoBatches3 [] 10 failRemote0 allOk allOk).reports.map Prod.fst
        = [0, 1, 2] ∧
    (0, false) ∈ (runDriver demoBatches3 [] 10 failRemote0 allOk allOk).reports ∧
    0 ∉ (runDriver demoBatches3 [] 10 failRemote0 allOk allOk).done ∧
    1 ∈ (runDriver demoBatches3 [] 10 failRemote0 allOk allOk).done ∧
    2 ∈ (runDriver demoBatches3 [] 10 failRemote0 allOk allOk).done := by
  have h := C5_batch_failure_isolated demoBatches3 [] 10 failRemote0 allOk allOk
    0 (.jobFailed ⟨some sFAILED⟩) rfl
  refine ⟨h.1.trans (by decide), h.2.1 (by decide), ?_, by decide, by decide⟩
  intro hmem
  have h0 := (h.2.2.1).mp hmem
  simp at h0

/-! ### Claim C10 -/

/-- C10 (amended): with batch size 0 the program raises a ValueError at
the batch-partitioning step (`range` with zero step), before any remote
call; but with a negative batch size no error is raised at all: `range`
with a negative step yields no indices, so the run proceeds with an
empty batch partition, performs no remote calls, and exits normally. -/
theorem C10_batch_size (sentences : List Str) (n : Int) (done0 : List ℕ)
    (remote : ℕ → Except GenError Str) (appendOk saveOk : ℕ → Bool) (b : Int) :
    (b = 0 → runMain sentences b n done0 remote appendOk saveOk
        = .error .valueError) ∧
    (b < 0 → runMain sentences b n done0 remote appendOk saveOk
        = .ok ⟨done0, [], [], []⟩) := by
  constructor
  · rintro rfl
    rw [runMain, mkBatches, pyRange, if_pos rfl]
  · intro hneg
    rw [runMain, mkBatches, pyRange, if_neg (by omega), if_neg (by omega),
      if_pos (by positivity)]
    dsimp only
    rw [List.map_nil]
    rw [runDriver_nil]

/-- C10 witness: batch size 0 aborts with ValueError before any remote
call; batch size -2 yields a normal, empty run. -/
theorem C10_batch_size_witness :
    runMain [['a']] 0 10 [] okRemote allOk allOk = .error .valueError ∧
    runMain [['a']] (-2) 10 [] okRemote allOk allOk = .ok ⟨[], [], [], []⟩ :=
  ⟨(C10_batch_size [['a']] 10 [] okRemote allOk allOk 0).1 rfl,
   (C10_batch_size [['a']] 10 [] okRemote allOk allOk (-2)).2 (by decide)⟩

/-- C10 counterexample: with batch size -1 (which is ≤ 0) the program
does not fail with any error: the run returns normally having processed
nothing, refuting "fails with a configuration error for every
batch size ≤ 0". -/
theorem C10_counterexample :
    runMain [['a']] (-1) 10 [] okRemote allOk allOk = .ok ⟨[], [], [], []⟩ := rfl

/-! ### Claim C4 -/

/-- C4: for every sequence and positive batch size, partitioning
succeeds and yields exactly ceil(len/size) batches (written
`(len + size - 1) / size`, which equals the ceiling for positive size);
batch i is the contiguous slice `[i*size, min((i+1)*size, len))`
(`drop (i*size)` then `take size`, which clamps at the end); and the
concatenation of the batches is the original sequence, so every position
belongs to exactly one batch (exhaustive and non-overlapping). -/
theorem C4_partition {α : Type} (s : List α) (b : Int) (hb : 1 ≤ b) :
    ∃ bs, mkBatches s b = .ok bs ∧
      bs.length = (s.length + b.toNat - 1) / b.toNat ∧
      bs.flatten = s ∧
      (∀ i, i < bs.length → bs.getD i [] = (s.drop (i * b.toNat)).take b.toNat) := by
  have hbn : 1 ≤ b.toNat := by omega
  refine ⟨chunkPos (b.toNat - 1) s, mkBatches_eq_chunkPos s b hb, ?_,
    chunkPos_flatten _ _, ?_⟩
  · rw [chunkPos_length, Nat.sub_add_cancel hbn]
    congr 1
    omega
  · intro i hi
    rw [chunkPos_getD, Nat.sub_add_cancel hbn]

/-- C4 witness: seven elements with batch size 3 give batches of sizes
3, 3, 1 satisfying every clause. -/
theorem C4_partition_witness :
    ∃ bs, mkBatches ['a','b','c','d','e','f','g'] (3 : Int) = .ok bs ∧
      bs.length = (['a','b','c','d','e','f','g'].length + (3 : Int).toNat - 1)
        / (3 : Int).toNat ∧
      bs.flatten = ['a','b','c','d','e','f','g'] ∧
      (∀ i, i < bs.length → bs.getD i []
        = (['a','b','c','d','e','f','g'].drop (i * (3 : Int).toNat)).take
            (3 : Int).toNat) :=
  C4_partition ['a','b','c','d','e','f','g'] 3 (by decide)

/-! ### Claim C6 -/

/-- C6 (amended): `load_progress` returns the empty set when no store
exists, when the stored value is falsy (empty list, empty string, empty
object, null, false, zero), or when the stored value is a non-empty
array or string whose first element is not an integer; for a non-empty
array with an integer first element it returns the stored elements.
However, loading does NOT succeed for every stored shape: a non-empty
value that is not subscriptable (a number, true, or a non-empty object)
makes `data[0]` raise, and the error propagates. -/
theorem C6_load_legacy :
    load_progress none = .ok [] ∧
    (∀ data, pyFalsy data = true → load_progress (some data) = .ok []) ∧
    (∀ x rest, isInstInt x = false →
      load_progress (some (.arr (x :: rest))) = .ok []) ∧
    (∀ x rest, isInstInt x = true →
      load_progress (some (.arr (x :: rest))) = .ok (x :: rest)) ∧
    (∀ cs, load_progress (some (.str cs)) = .ok []) := by
  refine ⟨rfl, ?_, ?_, ?_, ?_⟩
  · intro data h
    rw [load_progress, if_pos h]
  · intro x rest h
    rw [load_progress, if_neg (by simp [pyFalsy])]
    show (if isInstInt x = true then pyIter (.arr (x :: rest)) else .ok []) = .ok []
    rw [if_neg (by simp [h])]
  · intro x rest h
    rw [load_progress, if_neg (by simp [pyFalsy])]
    show (if isInstInt x = true then pyIter (.arr (x :: rest)) else .ok [])
      = .ok (x :: rest)
    rw [if_pos h]
    rfl
  · intro cs
    cases cs with
    | nil => rfl
    | cons c cs2 =>
      rw [load_progress, if_neg (by simp [pyFalsy])]
      show (if isInstInt (.str [c]) = true then pyIter (.str (c :: cs2))
        else .ok []) = .ok []
      rw [if_neg (by simp [isInstInt])]

/-- C6 witness: a missing store, an empty stored list, a legacy-shaped
list (first element not an int), and a current-format list. -/
theorem C6_load_legacy_witness :
    load_progress none = .ok [] ∧
    load_progress (some (.arr [])) = .ok [] ∧
    load_progress (some (.arr [.str ['a']])) = .ok [] ∧
    load_progress (some (.arr [.num 1, .num 2])) = .ok [.num 1, .num 2] := by
  have h := C6_load_legacy
  exact ⟨h.1, h.2.1 _ rfl, h.2.2.1 _ _ rfl, h.2.2.2.1 _ _ rfl⟩

/-- C6 counterexample: a stored JSON value `5` is non-empty, so the
falsiness guard does not fire, and `data[0]` raises TypeError — loading
fails, refuting "loading never fails for any stored shape". -/
theorem C6_counterexample :
    load_progress (some (.num 5)) = .error .typeError := rfl

/-! ### Claim C7 -/

theorem pollLoop_failed_iff (statuses : List StatusPayload) (p : StatusPayload) :
    pollLoop statuses = .failed p ↔
      ∃ pre post, statuses = pre ++ p :: post ∧
        (p.status = some sFAILED ∨ p.status = some sCANCELLED) ∧
        ∀ q ∈ pre, q.status ≠ some sCOMPLETED ∧ q.status ≠ some sFAILED ∧
          q.status ≠ some sCANCELLED := by
  induction statuses with
  | nil =>
    constructor
    · intro h
      exact absurd h (by rw [pollLoop]; simp)
    · rintro ⟨pre, post, h, -, -⟩
      exact absurd h (by simp)
  | cons st rest ih =>
    rw [pollLoop]
    by_cases h1 : st.status = some sCOMPLETED
    · rw [if_pos h1]
      constructor
      · intro h
        exact absurd h (by simp)
      · rintro ⟨pre, post, heq, hterm, hpre⟩
        cases pre with
        | nil =>
          obtain ⟨rfl, -⟩ := List.cons.injEq .. ▸ heq
          rcases hterm with h2 | h2 <;> rw [h1] at h2 <;>
            exact absurd (Option.some.injEq .. ▸ h2) (by decide)
        | cons q pre2 =>
          obtain ⟨rfl, -⟩ := List.cons.injEq .. ▸ heq
          exact absurd h1 (hpre st (List.mem_cons_self st pre2)).1
    · rw [if_neg h1]
      by_cases h2 : st.status = some sFAILED ∨ st.status = some sCANCELLED
      · rw [if_pos h2]
        constructor
        · intro h
          obtain rfl : st = p := PollResult.failed.injEq .. ▸ h
          exact ⟨[], rest, rfl, h2, by simp⟩
        · rintro ⟨pre, post, heq, hterm, hpre⟩
          cases pre with
          | nil =>
            obtain ⟨rfl, -⟩ := List.cons.injEq .. ▸ heq
            rfl
          | cons q pre2 =>
            obtain ⟨rfl, -⟩ := List.cons.injEq .. ▸ heq
            have h3 := hpre st (List.mem_cons_self st pre2)
            rcases h2 with h2 | h2
            · exact absurd h2 h3.2.1
            · exact absurd h2 h3.2.2
      · rw [if_neg h2]
        rw [ih]
        constructor
        · rintro ⟨pre, post, heq, hterm, hpre⟩
          refine ⟨st :: pre, post, by rw [List.cons_append, heq], hterm, ?_⟩
          intro q hq
          rcases List.mem_cons.mp hq with rfl | hq
          · have h3 := not_or.mp h2
            exact ⟨h1, h3.1, h3.2⟩
          · exact hpre q hq
        · rintro ⟨pre, post, heq, hterm, hpre⟩
          cases pre with
          | nil =>
            obtain ⟨rfl, -⟩ := List.cons.injEq .. ▸ heq
            exact absurd hterm h2
          | cons q pre2 =>
            obtain ⟨rfl, hrest⟩ := List.cons.injEq .. ▸ heq
            exact ⟨pre2, post, hrest, hterm,
              fun q2 hq2 => hpre q2 (List.mem_cons.mpr (Or.inr hq2))⟩

/-- C7 (amended): the client raises a job-failure error carrying the
observed status payload if and only if the poll trace contains a FAILED
or CANCELLED payload preceded only by non-terminal payloads (i.e. the
first terminal state observed is FAILED or CANCELLED).  When the poll
loop terminates with COMPLETED, the client raises a result error exactly
when the result payload carries a truthy error field: a present error
field that is falsy (e.g. the empty string) is treated as no error, and
the trimmed output text is returned. -/
theorem C7_client_protocol (statuses : List StatusPayload)
    (result : ResultPayload) :
    ((∃ p, generate_one statuses result = .raises (.jobFailed p)) ↔
      (∃ pre p post, statuses = pre ++ p :: post ∧
        (p.status = some sFAILED ∨ p.status = some sCANCELLED) ∧
        ∀ q ∈ pre, q.status ≠ some sCOMPLETED ∧ q.status ≠ some sFAILED ∧
          q.status ≠ some sCANCELLED)) ∧
    (pollLoop statuses = .completed →
      (∀ e, result.error = some e → pyFalsy e = false →
        generate_one statuses result = .raises (.resultError e)) ∧
      (∀ e out, result.error = some e → pyFalsy e = true →
        result.output = some out →
        generate_one statuses result = .returns (pyStrip out)) ∧
      (∀ out, result.error = none → result.output = some out →
        generate_one statuses result = .returns (pyStrip out))) := by
  constructor
  · constructor
    · rintro ⟨p, hp⟩
      rw [generate_one] at hp
      cases hpoll : pollLoop statuses with
      | completed =>
        exfalso
        rw [hpoll] at hp
        rcases herr : result.error with _ | e <;> rw [herr] at hp
        · rcases hout : result.output with _ | out <;> rw [hout] at hp <;>
            simp at hp
        · dsimp only at hp
          by_cases hf : pyFalsy e = true
          · rw [if_pos hf] at hp
            rcases hout : result.output with _ | out <;> rw [hout] at hp <;>
              simp at hp
          · rw [if_neg hf] at hp
            simp at hp
      | failed q =>
        rw [hpoll] at hp
        dsimp only at hp
        obtain rfl : q = p := by simpa using hp
        obtain ⟨pre, post, heq, hterm, hpre⟩ :=
          (pollLoop_failed_iff statuses q).mp hpoll
        exact ⟨pre, q, post, heq, hterm, hpre⟩
      | diverged =>
        rw [hpoll] at hp
        simp at hp
    · rintro ⟨pre, p, post, heq, hterm, hpre⟩
      have hfail : pollLoop statuses = .failed p :=
        (pollLoop_failed_iff statuses p).mpr ⟨pre, post, heq, hterm, hpre⟩
      exact ⟨p, by rw [generate_one, hfail]⟩
  · intro hcomp
    refine ⟨?_, ?_, ?_⟩
    · intro e he hfalse
      rw [generate_one, hcomp, he]
      dsimp only
      rw [if_neg (by simp [hfalse])]
    · intro e out he htrue hout
      rw [generate_one, hcomp, he]
      dsimp only
      rw [if_pos htrue, hout]
    · intro out he hout
      rw [generate_one, hcomp, he]
      dsimp only
      rw [hout]

/-- C7 witness: a trace whose first payload is FAILED makes the client
raise a job-failure error carrying that payload. -/
theorem C7_client_protocol_witness :
    ∃ p, generate_one [⟨some sFAILED⟩] ⟨none, some ['o', 'k']⟩
      = .raises (.jobFailed p) :=
  (C7_client_protocol [⟨some sFAILED⟩] ⟨none, some ['o', 'k']⟩).1.mpr
    ⟨[], ⟨some sFAILED⟩, [], rfl, Or.inl rfl, by simp⟩

/-- C7 counterexample: the result payload `demoEmptyErrResult` carries an
explicit error field (value: the empty string), yet after a COMPLETED
poll the client returns the trimmed output instead of raising a result
error — the truthiness test `if result.get("error"):` skips falsy error
values, refuting the claimed "exactly when the payload carries an
explicit error field". -/
theorem C7_counterexample :
    demoEmptyErrResult.error.isSome = true ∧
    generate_one [⟨some sCOMPLETED⟩] demoEmptyErrResult
      = .returns ['o', 'k'] := ⟨rfl, rfl⟩

/-! ### Claim C9 -/

/-- C9 (amended): every line kept by the formatter (`format_output` is
their intercalation with newlines, and these are exactly the lines
appended to the output file) ends with the stop marker; and a line that
did not already end with the marker receives exactly one copy — the
formatted line never ends with two consecutive markers in that case.
(A raw line that already ends with doubled markers is preserved
verbatim, so "exactly once" does not hold unconditionally.) -/
theorem C9_stop_marker (raw : Str) :
    format_output raw
        = List.intercalate ['\n'] ((splitRaw raw).filterMap keepLine) ∧
    (∀ l ∈ (splitRaw raw).filterMap keepLine, stopMarker.isSuffixOf l = true) ∧
    (∀ m ∈ splitRaw raw, stopMarker.isSuffixOf (pyStrip m) = false →
      ∀ l, keepLine m = some l →
        l = pyStrip m ++ stopMarker ∧
        (stopMarker ++ stopMarker).isSuffixOf l = false) := by
  refine ⟨rfl, ?_, ?_⟩
  · intro l hl
    obtain ⟨m, hm, hml⟩ := List.mem_filterMap.mp hl
    exact (keepLine_some_props hml).2.2.1
  · intro m hm hns l hl
    rw [keepLine] at hl
    by_cases hempty : pyStrip m = []
    · simp [hempty] at hl
    · rw [if_neg hempty, if_neg (by simp [hns])] at hl
      obtain rfl : pyStrip m ++ stopMarker = l := Option.some.injEq .. ▸ hl
      refine ⟨rfl, ?_⟩
      cases hdb : (stopMarker ++ stopMarker).isSuffixOf (pyStrip m ++ stopMarker) with
      | false => rfl
      | true =>
        exfalso
        obtain ⟨u, hu⟩ := List.isSuffixOf_iff_suffix.mp hdb
        have h2 : (u ++ stopMarker) ++ stopMarker = pyStrip m ++ stopMarker := by
          rw [List.append_assoc]
          exact hu
        have h3 : u ++ stopMarker = pyStrip m := List.append_cancel_right h2
        have h4 : stopMarker.isSuffixOf (pyStrip m) = true :=
          List.isSuffixOf_iff_suffix.mpr ⟨u, h3⟩
        rw [hns] at h4
        exact Bool.false_ne_true h4

/-- C9 witness: a line "a" without a marker is formatted to end with the
stop marker exactly once, not twice. -/
theorem C9_stop_marker_witness :
    stopMarker.isSuffixOf (['a'] ++ stopMarker) = true ∧
    (stopMarker ++ stopMarker).isSuffixOf (['a'] ++ stopMarker) = false := by
  have h := C9_stop_marker ['a']
  refine ⟨h.2.1 (['a'] ++ stopMarker) (by decide), ?_⟩
  exact (h.2.2 ['a'] (by decide) (by decide) (['a'] ++ stopMarker) (by decide)).2

/-- C9 counterexample: the raw line "x<stop><stop>" already ends with
the marker, so the formatter keeps it unchanged — the persisted line
ends with two consecutive stop markers, refuting "exactly once" for
every raw generated text. -/
theorem C9_counterexample :
    format_output demoDouble = demoDouble ∧
    (stopMarker ++ stopMarker).isSuffixOf (format_output demoDouble) = true := by
  decide
